/-
Verification of the RealEstateSpider article-extraction and ingestion pipeline.

The development shallowly embeds the repository's parsing and storage code:
HTML documents are modelled as rose trees (`Node`), BeautifulSoup-style
traversals (`find`, `find_all`, `get_text`, `decompose`) as structural
recursions over them, article dictionaries as the `Article` structure, and
the PostgreSQL upsert statements of `db_connector.py` as pure transitions
over an explicit table state.  Fallible parsing (Python KeyError caught by
the surrounding try/except) is embedded with `Except`.
-/
import Mathlib

set_option linter.unusedVariables false

/-! ## HTML document model (BeautifulSoup tree) -/

/-- A parsed markup tree: either a text node or an element with a tag name,
a list of CSS classes, a list of attributes and child nodes. -/
inductive Node where
  | text (s : String)
  | elem (tag : String) (classes : List String) (attrs : List (String × String)) (children : List Node)
deriving Repr

/-- Tag-name test (`find('div', ...)` tag component). -/
def isTag (t : String) : Node → Bool
  | .text _ => false
  | .elem tg _ _ _ => tg == t

/-- Tag-name-in-list test (`find_all(['header', 'nav', 'aside'])`). -/
def isTagIn (ts : List String) : Node → Bool
  | .text _ => false
  | .elem tg _ _ _ => ts.contains tg

/-- CSS-class membership test (`class_='x'` matches any one of the tag's classes). -/
def hasClass (c : String) : Node → Bool
  | .text _ => false
  | .elem _ cls _ _ => cls.contains c

/-- Callable class filter (`class_=lambda c: ...` is applied to each class value). -/
def classMatches (f : String → Bool) : Node → Bool
  | .text _ => false
  | .elem _ cls _ _ => cls.any f

/-- Attribute lookup (`tag['href']` / `tag.get(name)` value, `none` when absent). -/
def getAttr (name : String) : Node → Option String
  | .text _ => none
  | .elem _ _ attrs _ => (attrs.find? (fun p => p.1 == name)).map (fun p => p.2)

mutual
/-- `tag.find_all(pred)`: all descendants satisfying `pred`, in document order
(the node itself is not included, matching BeautifulSoup). -/
def findAll (p : Node → Bool) : Node → List Node
  | .text _ => []
  | .elem _ _ _ ch => findAllList p ch
/-- `findAll` over a child list: each child, then its descendants, in order. -/
def findAllList (p : Node → Bool) : List Node → List Node
  | [] => []
  | n :: t => (if p n then [n] else []) ++ findAll p n ++ findAllList p t
end

/-- `tag.find(pred)`: the first descendant satisfying `pred`, if any. -/
def findFirst (p : Node → Bool) (n : Node) : Option Node :=
  (findAll p n).head?

mutual
/-- `tag.text` / `tag.get_text()`: concatenation of all text in the subtree. -/
def getText : Node → String
  | .text s => s
  | .elem _ _ _ ch => getTextList ch
/-- `getText` over a child list. -/
def getTextList : List Node → String
  | [] => ""
  | n :: t => getText n ++ getTextList t
end

mutual
/-- `for x in tag.find_all(pred): x.decompose()`: drop every descendant
subtree whose root satisfies `pred`. -/
def removeAll (p : Node → Bool) : Node → Node
  | .text s => .text s
  | .elem t c a ch => .elem t c a (removeAllList p ch)
/-- `removeAll` over a child list. -/
def removeAllList (p : Node → Bool) : List Node → List Node
  | [] => []
  | n :: t => (if p n then [] else [removeAll p n]) ++ removeAllList p t
end

mutual
/-- Replace the first descendant satisfying `p` (document order) with its
image under `f`; the Boolean reports whether a replacement happened.  This
models an in-place `decompose` inside a found subtree, as seen by later
lookups on the whole soup. -/
def replaceFirst (p : Node → Bool) (f : Node → Node) : Node → Node × Bool
  | .text s => (.text s, false)
  | .elem t c a ch =>
      let r := replaceFirstList p f ch
      (.elem t c a r.1, r.2)
/-- `replaceFirst` over a child list. -/
def replaceFirstList (p : Node → Bool) (f : Node → Node) : List Node → List Node × Bool
  | [] => ([], false)
  | n :: t =>
      if p n then (f n :: t, true)
      else
        let r := replaceFirst p f n
        if r.2 then (r.1 :: t, true)
        else
          let rt := replaceFirstList p f t
          (n :: rt.1, rt.2)
end

/-- Python's substring test `needle in hay` on a character list. -/
def pyInChars (needle : List Char) : List Char → Bool
  | [] => needle.isEmpty
  | c :: t => needle.isPrefixOf (c :: t) || pyInChars needle t

/-- Python's substring test `needle in hay` on strings. -/
def pyIn (needle hay : String) : Bool := pyInChars needle.data hay.data

/-- Python's `s.strip()`: drop leading and trailing whitespace, taken at the
character level. -/
def String.pyStrip (s : String) : String :=
  String.mk (((s.data.dropWhile Char.isWhitespace).reverse.dropWhile Char.isWhitespace).reverse)

/-- Python's `s.startswith(pre)`, taken at the character level. -/
def String.pyStartsWith (s pre : String) : Bool :=
  pre.data.isPrefixOf s.data

/-- Python's `s.rstrip(chars)`: drop trailing characters satisfying `p`,
taken at the character level. -/
def String.pyRstrip (s : String) (p : Char → Bool) : String :=
  String.mk (s.data.reverse.dropWhile p).reverse

/-- `' '.join(xs.map (·.text.strip()))` applied to a list of nodes. -/
def joinTexts (ps : List Node) : String :=
  String.intercalate " " (ps.map (fun p => (getText p).pyStrip))

/-! ## Article records

One record shape serves all three scrapers; fields a given scraper leaves out
of its dictionary keep their default, exactly as `article.get(key, default)`
reads them in `db_connector.py`. -/

/-- An article dictionary as built by the scrapers. -/
structure Article where
  link : String := ""
  title : String := ""
  summary : String := ""
  author : String := ""
  author_title : String := ""
  date : String := ""
  categories : List String := []
  image_url : String := ""
  content : String := ""
  source : String := ""
deriving Repr, DecidableEq

/-- The per-item loop body of the listing parsers, threaded through `Except`:
`.error` models a Python KeyError escaping the loop (caught by the outer
try/except, which then returns `[]`); `.ok none` models an item that is
silently skipped; `.ok (some r)` appends record `r`. -/
def extractItems (f : Node → Except Unit (Option Article)) : List Node → Except Unit (List Article)
  | [] => .ok []
  | i :: t => do
      let r? ← f i
      let rest ← extractItems f t
      match r? with
      | none => pure rest
      | some r => pure (r :: rest)

/-! ## scrape_credaily.py -/

namespace Credaily

/-- A listing entry: `soup.find_all('div', class_='c-brief-list__item')`. -/
def itemPred (n : Node) : Bool := isTag "div" n && hasClass "c-brief-list__item" n

/-- The entry's title element: `item.find('h5', class_='c-brief-list__item-title')`. -/
def titlePred (n : Node) : Bool := isTag "h5" n && hasClass "c-brief-list__item-title" n

/-- Per-item body of `CredailyScraper.parse_brief_links` (src/scrape_credaily.py
lines 19-51): skip items with no title element or no anchor; a missing `href`
raises KeyError (modelled as `.error`). -/
def record_of_item (item : Node) : Except Unit (Option Article) :=
  match findFirst titlePred item with
  | none => .ok none
  | some te =>
    match findFirst (isTag "a") te with
    | none => .ok none
    | some a =>
      match getAttr "href" a with
      | none => .error ()
      | some link =>
        let title := (getText a).pyStrip
        let summary :=
          match findFirst (fun n => isTag "p" n && hasClass "c-brief-list__item-text" n) item with
          | some se => (getText se).pyStrip
          | none => ""
        let author :=
          match findFirst (fun n => isTag "div" n && hasClass "c-brief-list__item-author" n) item with
          | some ae => (((getText ae).replace "By" "")).pyStrip
          | none => ""
        let date :=
          match findFirst (fun n => isTag "div" n && hasClass "c-brief-list__item-date" n) item with
          | some de => (getText de).pyStrip
          | none => ""
        let categories :=
          match findFirst (fun n => isTag "div" n && hasClass "c-brief-list__item-category" n) item with
          | some ce =>
            (findAll (fun n => isTag "a" n && hasClass "c-articles__category" n) ce).map
              (fun c => (getText c).pyStrip)
          | none => []
        .ok (some { link := link, title := title, summary := summary, author := author,
                    date := date, categories := categories })

/-- `CredailyScraper.parse_brief_links`: collect records from all listing
items; any exception inside the loop is caught and `[]` is returned. -/
def parse_brief_links (doc : Node) : List Article :=
  match extractItems record_of_item (findAll itemPred doc) with
  | .error _ => []
  | .ok l => l

/-- Content strategy 1: `soup.find('div', class_='c-article__content')`,
then join the stripped text of its paragraphs (lines 66-70). -/
def strat1 (doc : Node) : String :=
  match findFirst (fun n => isTag "div" n && hasClass "c-article__content" n) doc with
  | none => ""
  | some el =>
    let ps := findAll (isTag "p") el
    if ps.isEmpty then "" else joinTexts ps

/-- Content strategy 2: `soup.find('div', class_='c-article__body')` (lines 75-79). -/
def strat2 (doc : Node) : String :=
  match findFirst (fun n => isTag "div" n && hasClass "c-article__body" n) doc with
  | none => ""
  | some el =>
    let ps := findAll (isTag "p") el
    if ps.isEmpty then "" else joinTexts ps

/-- `soup.find('main', id='main-content')`. -/
def mainPred (n : Node) : Bool := isTag "main" n && (getAttr "id" n == some "main-content")

/-- Content strategy 3 (lines 83-91): find the main content area, decompose
`header`/`nav`/`aside` inside it (an in-place mutation of the soup, hence the
updated document is returned alongside the text), then join paragraph text. -/
def strat3 (doc : Node) : String × Node :=
  match findFirst mainPred doc with
  | none => ("", doc)
  | some m =>
    let strip := removeAll (isTagIn ["header", "nav", "aside"])
    let m' := strip m
    let doc' := (replaceFirst mainPred strip doc).1
    let ps := findAll (isTag "p") m'
    (if ps.isEmpty then "" else joinTexts ps, doc')

/-- Strategy 4's container filter:
`soup.find_all('div', class_=lambda c: c and ('article' in c or 'content' in c))`. -/
def loosePred (n : Node) : Bool :=
  isTag "div" n && classMatches (fun c => pyIn "article" c || pyIn "content" c) n

/-- Strategy 4's scan loop (lines 97-101): take the first candidate container
holding at least two paragraphs. -/
def strat4_go : List Node → String
  | [] => ""
  | d :: t =>
    let ps := findAll (isTag "p") d
    if !ps.isEmpty && 2 ≤ ps.length then joinTexts ps else strat4_go t

/-- Content strategy 4 (lines 96-101): heuristic scan of loosely
article/content-classed containers, requiring a minimum of 2 paragraphs. -/
def strat4 (doc : Node) : String :=
  strat4_go (findAll loosePred doc)

/-- Shared last-resort strategy: take the page body, decompose the given
structural chrome tags, and keep only paragraph texts longer than 40
characters. -/
def bodyFallback (chrome : List String) (doc : Node) : String :=
  match findFirst (isTag "body") doc with
  | none => ""
  | some b =>
    let b' := removeAll (isTagIn chrome) b
    let cps := ((findAll (isTag "p") b').map (fun p => (getText p).pyStrip)).filter
      (fun s => 40 < s.length)
    if cps.isEmpty then "" else String.intercalate " " cps

/-- `CredailyScraper.parse_brief_content` (lines 57-125): the five-strategy
cascade; each later strategy runs only when `content` is still empty, and
strategies 4 and 5 observe the soup as mutated by strategy 3's decompose. -/
def parse_brief_content (doc : Node) (r : Article) : Article :=
  let c1 := strat1 doc
  if c1 ≠ "" then { r with content := c1 }
  else
    let c2 := strat2 doc
    if c2 ≠ "" then { r with content := c2 }
    else
      let s3 := strat3 doc
      if s3.1 ≠ "" then { r with content := s3.1 }
      else
        let c4 := strat4 s3.2
        if c4 ≠ "" then { r with content := c4 }
        else { r with content := bodyFallback ["header", "footer", "nav", "aside"] s3.2 }

end Credaily

/-! ## scrape_multifamilydive.py -/

namespace Multifamilydive

/-- A feed entry: `soup.find_all('li', class_='feed__item')`. -/
def itemPred (n : Node) : Bool := isTag "li" n && hasClass "feed__item" n

/-- The entry's title element: `item.find('h3', class_='feed__title')`. -/
def titlePred (n : Node) : Bool := isTag "h3" n && hasClass "feed__title" n

/-- Relative links are absolutized against the site base
(src/scrape_multifamilydive.py lines 29-30). -/
def absolutize (link : String) : String :=
  if link.pyStartsWith "http" then link else "https://www.multifamilydive.com" ++ link

/-- Per-item body of `MultifamilydiveScraper.parse_article_links` (lines
20-51): ad items (class `feed-item-ad`) are skipped before anything else;
items with no title element or no anchor are skipped; a missing `href`
raises KeyError. -/
def record_of_item (item : Node) : Except Unit (Option Article) :=
  if hasClass "feed-item-ad" item then .ok none
  else
    match findFirst titlePred item with
    | none => .ok none
    | some te =>
      match findFirst (isTag "a") te with
      | none => .ok none
      | some a =>
        match getAttr "href" a with
        | none => .error ()
        | some href =>
          let title := (getText a).pyStrip
          let summary :=
            match findFirst (fun n => isTag "p" n && hasClass "feed__description" n) item with
            | some de => (getText de).pyStrip
            | none => ""
          let category :=
            match findFirst (fun n => isTag "span" n && hasClass "label" n) item with
            | some le => (getText le).pyStrip
            | none => ""
          .ok (some { link := absolutize href, title := title, summary := summary,
                      categories := if category = "" then [] else [category],
                      source := "multifamilydive" })

/-- `MultifamilydiveScraper.parse_article_links`. -/
def parse_article_links (doc : Node) : List Article :=
  match extractItems record_of_item (findAll itemPred doc) with
  | .error _ => []
  | .ok l => l

/-- `soup.find('article', class_='brief') or soup.find('article')` as a single
first-match predicate (which alternative applies depends on whether any
`article.brief` exists in the document). -/
def artPred (doc : Node) : Node → Bool :=
  if (findFirst (fun n => isTag "article" n && hasClass "brief" n) doc).isSome then
    fun n => isTag "article" n && hasClass "brief" n
  else isTag "article"

/-- The article container used by `parse_article_content` (line 67). -/
def find_article (doc : Node) : Option Node := findFirst (artPred doc) doc

/-- `article_container.find('div', class_='author-name-with-headshot') or
article_container.find('div', class_='author-name')` (line 70). -/
def find_author_el (art : Node) : Option Node :=
  match findFirst (fun n => isTag "div" n && hasClass "author-name-with-headshot" n) art with
  | some ae => some ae
  | none => findFirst (fun n => isTag "div" n && hasClass "author-name" n) art

/-- `author_element.find('a', rel='author')`: `rel` is a multi-valued
attribute, so the filter tests membership of `author` in its value list. -/
def relAuthorPred (n : Node) : Bool :=
  isTag "a" n &&
    (match getAttr "rel" n with
     | some v => (v.split (fun c => c.isWhitespace)).contains "author"
     | none => false)

/-- Author extraction of `parse_article_content` (lines 70-86): prefer the
headshot/name block (anchor with `rel='author'`, plus an optional
`span.author-title`), falling back to `div.article__byline`.  The values are
written into the copy unconditionally when found. -/
def apply_author (art : Node) (r : Article) : Article :=
  match find_author_el art with
  | some ae =>
    let r' :=
      match findFirst relAuthorPred ae with
      | some al => { r with author := (getText al).pyStrip }
      | none => r
    (match findFirst (fun n => isTag "span" n && hasClass "author-title" n) ae with
     | some at_el => { r' with author_title := (getText at_el).pyStrip }
     | none => r')
  | none =>
    match findFirst (fun n => isTag "div" n && hasClass "article__byline" n) art with
    | some be => { r with author := (getText be).pyStrip }
    | none => r

/-- `article_container.find('div', class_='date') or
article_container.find('span', class_='published-info')` (line 89). -/
def find_date_el (art : Node) : Option Node :=
  match findFirst (fun n => isTag "div" n && hasClass "date" n) art with
  | some de => some de
  | none => findFirst (fun n => isTag "span" n && hasClass "published-info" n) art

/-- Date extraction (lines 89-92): written unconditionally when found. -/
def apply_date (art : Node) (r : Article) : Article :=
  match find_date_el art with
  | some de => { r with date := (getText de).pyStrip }
  | none => r

/-- Category extraction source (lines 95-99): the topic anchors of
`div.post-article-topics` (searched on the whole soup), with a trailing-comma
strip on each topic; `none` when the div is absent or holds no topic anchor. -/
def detail_cats (doc : Node) : Option (List String) :=
  match findFirst (fun n => isTag "div" n && hasClass "post-article-topics" n) doc with
  | none => none
  | some cd =>
    let cls := findAll (fun n => isTag "a" n && hasClass "topic" n) cd
    if cls.isEmpty then none
    else some (cls.map (fun l => ((getText l).pyStrip).pyRstrip (fun c => c == ',')))

/-- Category write-back (lines 100-102): overwrites the copy's categories
whenever a non-empty topic list was extracted. -/
def apply_cats (doc : Node) (r : Article) : Article :=
  match detail_cats doc with
  | some cats => if cats.isEmpty then r else { r with categories := cats }
  | none => r

/-- The supplementary-metadata block of `parse_article_content` (lines 69-102),
applied to the copy once an article container was found. -/
def apply_meta (art : Node) (doc : Node) (r : Article) : Article :=
  apply_cats doc (apply_date art (apply_author art r))

/-- `div.article-body` (lines 105 and 118). -/
def bodyPred (n : Node) : Bool := isTag "div" n && hasClass "article-body" n

/-- Ad/widget filter of strategy 1 (line 108). -/
def adClass1 (c : String) : Bool := pyIn "ad" c || pyIn "widget" c || pyIn "hybrid-ad" c

/-- Strategy 1's decompose: drop `div`/`aside` descendants with an ad-like class. -/
def stripAds1 (n : Node) : Node :=
  removeAll (fun m => isTagIn ["div", "aside"] m && classMatches adClass1 m) n

/-- Ad filter of strategy 2 (line 121). -/
def adClass2 (c : String) : Bool := pyIn "ad" c || pyIn "hybrid" c

/-- Strategy 2's decompose: drop `div` descendants with an ad-like class. -/
def stripAds2 (n : Node) : Node :=
  removeAll (fun m => isTag "div" m && classMatches adClass2 m) n

/-- Strategy 1 of the content cascade (lines 67-113) together with the
metadata block: returns the updated copy, the content found in the article's
`div.article-body` after ad removal, and the soup as mutated by that removal. -/
def stage1 (doc : Node) (r : Article) : Article × String × Node :=
  match find_article doc with
  | none => (r, "", doc)
  | some art =>
    let r' := apply_meta art doc r
    match findFirst bodyPred art with
    | none => (r', "", doc)
    | some b =>
      let b' := stripAds1 b
      let doc' := (replaceFirst (artPred doc) (fun a => (replaceFirst bodyPred stripAds1 a).1) doc).1
      let ps := findAll (isTag "p") b'
      (r', if ps.isEmpty then "" else joinTexts ps, doc')

/-- Strategy 2 (lines 116-126): any `div.article-body` on the whole soup,
ads stripped (again mutating the soup), paragraphs joined. -/
def stage2 (doc : Node) : String × Node :=
  match findFirst bodyPred doc with
  | none => ("", doc)
  | some b =>
    let b' := stripAds2 b
    let doc' := (replaceFirst bodyPred stripAds2 doc).1
    let ps := findAll (isTag "p") b'
    (if ps.isEmpty then "" else joinTexts ps, doc')

/-- Strategy 3 (lines 130-139): the `main` landmark with
`header`/`nav`/`aside` decomposed. -/
def stage3 (doc : Node) : String × Node :=
  match findFirst (isTag "main") doc with
  | none => ("", doc)
  | some m =>
    let strip := removeAll (isTagIn ["header", "nav", "aside"])
    let m' := strip m
    let doc' := (replaceFirst (isTag "main") strip doc).1
    let ps := findAll (isTag "p") m'
    (if ps.isEmpty then "" else joinTexts ps, doc')

/-- `MultifamilydiveScraper.parse_article_content` (lines 57-163): metadata
extraction plus the four-stage content cascade; the copy of the input record
is returned with `content` set to the first non-empty stage result (or `""`). -/
def parse_article_content (doc : Node) (r : Article) : Article :=
  let s1 := stage1 doc r
  let r' := s1.1
  if s1.2.1 ≠ "" then { r' with content := s1.2.1 }
  else
    let s2 := stage2 s1.2.2
    if s2.1 ≠ "" then { r' with content := s2.1 }
    else
      let s3 := stage3 s2.2
      if s3.1 ≠ "" then { r' with content := s3.1 }
      else { r' with content := Credaily.bodyFallback ["header", "footer", "aside", "nav"] s3.2 }

end Multifamilydive

/-! ## scrape_multihousing.py -/

namespace Multihousing

/-- A listing entry: `soup.find_all('div', class_='cpe-posts-category-page')`. -/
def itemPred (n : Node) : Bool := isTag "div" n && hasClass "cpe-posts-category-page" n

/-- The entry's title element: `item.find('h2', class_='fl-post-title')`. -/
def titlePred (n : Node) : Bool := isTag "h2" n && hasClass "fl-post-title" n

/-- `tag.contents[-1]`: the last direct child of an element. -/
def lastChild : Node → Option Node
  | .text _ => none
  | .elem _ _ _ ch => ch.getLast?

/-- Per-item body of `MultihousingScraper.parse_brief_links`
(src/scrape_multihousing.py lines 19-67): skip items with no title element or
no anchor; missing `href` on the title anchor or missing `src` on the listing
image raises KeyError. -/
def record_of_item (item : Node) : Except Unit (Option Article) :=
  match findFirst titlePred item with
  | none => .ok none
  | some te =>
    match findFirst (isTag "a") te with
    | none => .ok none
    | some a =>
      match getAttr "href" a with
      | none => .error ()
      | some link =>
        let title := (getText a).pyStrip
        let summary :=
          match findFirst (fun n => isTag "div" n && hasClass "fl-post-excerpt" n) item with
          | some se =>
            (match findFirst (isTag "p") se with
             | some p => (getText p).pyStrip
             | none => "")
          | none => ""
        let meta := findFirst (fun n => isTag "div" n && hasClass "fl-post-meta" n) item
        let author :=
          match meta with
          | some me =>
            (match findFirst (isTag "a") me with
             | some ae => (getText ae).pyStrip
             | none => "")
          | none => ""
        let date :=
          match meta with
          | some me =>
            if (findFirst (fun n => isTag "span" n && hasClass "fl-post-meta-sep" n) me).isSome then
              match lastChild me with
              | some (.text s) => s.pyStrip
              | _ => ""
            else ""
          | none => ""
        let categories :=
          match findFirst (fun n => isTag "div" n && hasClass "cpe-categories" n) item with
          | some ce => (findAll (isTag "a") ce).map (fun c => (getText c).pyStrip)
          | none => []
        match findFirst (fun n => isTag "div" n && hasClass "fl-post-image" n) item with
        | some ie =>
          (match findFirst (isTag "img") ie with
           | some img =>
             (match getAttr "src" img with
              | none => .error ()
              | some src =>
                .ok (some { link := link, title := title, summary := summary, author := author,
                            date := date, categories := categories, image_url := src }))
           | none =>
             .ok (some { link := link, title := title, summary := summary, author := author,
                         date := date, categories := categories }))
        | none =>
          .ok (some { link := link, title := title, summary := summary, author := author,
                      date := date, categories := categories })

/-- `MultihousingScraper.parse_brief_links`. -/
def parse_brief_links (doc : Node) : List Article :=
  match extractItems record_of_item (findAll itemPred doc) with
  | .error _ => []
  | .ok l => l

/-- `soup.find('div', id='cmw_main_content')` (line 82). -/
def mainPred (n : Node) : Bool := isTag "div" n && (getAttr "id" n == some "cmw_main_content")

/-- Line 85-88: `brief_info['title'] = ...` when the incoming title is falsy —
an in-place write to the caller's record. -/
def fill_title (m : Node) (r : Article) : Article :=
  if r.title = "" then
    match findFirst (fun n => isTag "h1" n && hasClass "fl-heading" n) m with
    | some te => { r with title := (getText te).pyStrip }
    | none => r
  else r

/-- Lines 91-94: in-place author fill when the incoming author is falsy. -/
def fill_author (m : Node) (r : Article) : Article :=
  if r.author = "" then
    match findFirst (fun n => isTag "a" n && hasClass "tdb-author-name" n) m with
    | some ae => { r with author := (getText ae).pyStrip }
    | none => r
  else r

/-- Lines 97-100: in-place date fill when the incoming date is falsy. -/
def fill_date (m : Node) (r : Article) : Article :=
  if r.date = "" then
    match findFirst (fun n => isTag "span" n && hasClass "fl-post-info-date" n) m with
    | some de => { r with date := (getText de).pyStrip }
    | none => r
  else r

/-- Lines 103-106: in-place categories fill when the categories element exists
and the incoming list is falsy. -/
def fill_cats (m : Node) (r : Article) : Article :=
  match findFirst (fun n => isTag "div" n && hasClass "post_categories" n) m with
  | some ce =>
    let cats := (findAll (fun n => isTag "a" n && hasClass "post_cat" n) ce).map
      (fun c => (getText c).pyStrip)
    if r.categories = [] then { r with categories := cats } else r
  | none => r

/-- The in-place metadata fills of `parse_brief_content` (lines 85-106),
applied in source order to the caller's record. -/
def fill_meta (m : Node) (r : Article) : Article :=
  fill_cats m (fill_date m (fill_author m (fill_title m r)))

/-- Lines 109-129: gather content from `div.cmw_single_post_content` followed
by every `div.fl-rich-text` section, keeping only non-empty paragraph texts. -/
def main_content (m : Node) : String :=
  let contentElems :=
    (match findFirst (fun n => isTag "div" n && hasClass "cmw_single_post_content" n) m with
     | some pc => [pc]
     | none => []) ++
    findAll (fun n => isTag "div" n && hasClass "fl-rich-text" n) m
  let paras := contentElems.flatMap (fun el =>
    ((findAll (isTag "p") el).map (fun p => (getText p).pyStrip)).filter (fun s => s ≠ ""))
  if paras.isEmpty then "" else String.intercalate " " paras

/-- `MultihousingScraper.parse_brief_content` (lines 73-153).  The first
component is the caller's record as left after the function's in-place
metadata writes; the second is the returned copy (with `content` set).  The
body fallback operates on the original soup. -/
def parse_brief_content (doc : Node) (r : Article) : Article × Article :=
  match findFirst mainPred doc with
  | none =>
    let c := Credaily.bodyFallback ["header", "footer", "nav", "aside"] doc
    (r, { r with content := c })
  | some m =>
    let r1 := fill_meta m r
    let c0 := main_content m
    let c := if c0 = "" then Credaily.bodyFallback ["header", "footer", "nav", "aside"] doc else c0
    (r1, { r1 with content := c })

end Multihousing

/-! ## db_connector.py -/

namespace DbConnector

/-- A row of `multifamilydive_articles`: the scraped columns plus the
`SERIAL` surrogate key and the `created_at` timestamp (an abstract tick). -/
structure Row where
  id : Nat
  title : String
  link : String
  summary : String
  author : String
  author_title : String
  date : String
  categories : String
  content : String
  source : String
  created_at : Nat
deriving Repr, DecidableEq

/-- Table state: current rows in insertion order plus the sequence value
backing the `SERIAL` primary key. -/
structure DB where
  rows : List Row := []
  nextId : Nat := 1
deriving Repr, DecidableEq

/-- `','.join(categories)` (src/db_connector.py line 97), taken at the
character level: concatenate the category values with a comma between
consecutive ones. -/
def joinCats (cats : List String) : String :=
  String.mk (List.intercalate [','] (cats.map String.data))

/-- The `DO UPDATE SET` clause of the upsert (lines 103-111): overwrite every
mutable column from the excluded record, keeping `id`, `link` and
`created_at`. -/
def updateRow (a : Article) (row : Row) : Row :=
  { row with title := a.title, summary := a.summary, author := a.author,
             author_title := a.author_title, date := a.date,
             categories := joinCats a.categories, content := a.content,
             source := a.source }

/-- The row a plain insert produces (lines 100-102 with the `VALUES` tuple of
lines 114-124), with the next sequence value and the current timestamp. -/
def newRow (id : Nat) (now : Nat) (a : Article) : Row :=
  { id := id, title := a.title, link := a.link, summary := a.summary,
    author := a.author, author_title := a.author_title, date := a.date,
    categories := joinCats a.categories, content := a.content,
    source := a.source, created_at := now }

/-- The `INSERT ... ON CONFLICT (link) DO UPDATE` statement of
`insert_multifamilydive_article` (lines 99-112) as a state transition: if a
row with the record's `link` exists it is updated in place, otherwise a fresh
row is appended; the sequence advances either way. -/
def upsert_sql (db : DB) (now : Nat) (a : Article) : DB :=
  if db.rows.any (fun row => row.link == a.link) then
    { rows := db.rows.map (fun row => if row.link == a.link then updateRow a row else row),
      nextId := db.nextId + 1 }
  else
    { rows := db.rows ++ [newRow db.nextId now a], nextId := db.nextId + 1 }

/-- `DatabaseConnector.insert_multifamilydive_article` (lines 93-130): the
statement runs inside try/except; `storageFails` is the environment's verdict
on whether the backend raises for this record, in which case the transaction
is rolled back (state unchanged) and `False` is returned. -/
def insert_multifamilydive_article (storageFails : Article → Bool) (db : DB) (now : Nat)
    (a : Article) : DB × Bool :=
  if storageFails a then (db, false) else (upsert_sql db now a, true)

/-- One iteration of the batch loop of `insert_multifamilydive_articles`
(lines 170-172): run the per-record insert on the current state and bump the
success count when it returns `True`. -/
def insert_articles_step (storageFails : Article → Bool) (now : Nat) (acc : DB × Nat)
    (a : Article) : DB × Nat :=
  let res := insert_multifamilydive_article storageFails acc.1 now a
  (res.1, if res.2 then acc.2 + 1 else acc.2)

/-- `DatabaseConnector.insert_multifamilydive_articles` (lines 167-175):
upsert each record independently, tallying successes. -/
def insert_multifamilydive_articles (storageFails : Article → Bool) (db : DB) (now : Nat)
    (articles : List Article) : DB × Nat :=
  articles.foldl (insert_articles_step storageFails now) (db, 0)

/-- Modelled from the spec: no code under src/ reads the stored `categories`
column back into a sequence; the spec's category round-trip ("stored as a
delimited string", re-read by "splitting it back on the delimiter") is
modelled as the character-level split on the comma delimiter. -/
def splitCats (s : String) : List String :=
  (s.data.splitOn ',').map (fun cs => String.mk cs)

/-- The rows currently stored for a link. -/
def linkRows (db : DB) (l : String) : List Row :=
  db.rows.filter (fun row => row.link == l)

end DbConnector

/-! ## Tree lemmas -/

theorem findFirst_mem {p : Node → Bool} {n m : Node} (h : findFirst p n = some m) :
    m ∈ findAll p n := by
  unfold findFirst at h
  cases hfa : findAll p n with
  | nil => rw [hfa] at h; cases h
  | cons x xs =>
      rw [hfa] at h
      have hx : x = m := by simpa using h
      subst hx
      exact List.mem_cons_self x xs

mutual
/-- Decomposing subtrees cannot create matches of a predicate that is
invariant under `removeAll` (such as a tag test). -/
theorem findAll_removeAll_eq_nil (p q : Node → Bool) (hp : ∀ m, p (removeAll q m) = p m) :
    ∀ n : Node, findAll p n = [] → findAll p (removeAll q n) = []
  | .text _, _ => rfl
  | .elem t c a ch, h => findAllList_removeAllList_eq_nil p q hp ch h
theorem findAllList_removeAllList_eq_nil (p q : Node → Bool)
    (hp : ∀ m, p (removeAll q m) = p m) :
    ∀ l : List Node, findAllList p l = [] → findAllList p (removeAllList q l) = []
  | [], _ => rfl
  | n :: t, h => by
      have hpn : p n = false := by
        by_cases hc : p n
        · exfalso; simp [findAllList, hc] at h
        · simpa using hc
      have h23 : findAll p n = [] ∧ findAllList p t = [] := by
        simpa [findAllList, hpn] using h
      by_cases hq : q n
      · simpa [removeAllList, hq] using findAllList_removeAllList_eq_nil p q hp t h23.2
      · simp only [removeAllList, hq, Bool.false_eq_true, if_false, List.singleton_append,
          findAllList, hp n, hpn, List.nil_append, List.append_eq_nil]
        exact ⟨findAll_removeAll_eq_nil p q hp n h23.1,
          findAllList_removeAllList_eq_nil p q hp t h23.2⟩
end

mutual
/-- Matches inside a found subtree are matches of the whole tree. -/
theorem subset_of_mem_findAll (p q : Node → Bool) :
    ∀ n : Node, ∀ m ∈ findAll q n, ∀ x ∈ findAll p m, x ∈ findAll p n
  | .text _, m, hm => by simp [findAll] at hm
  | .elem t c a ch, m, hm => by
      simp only [findAll] at hm ⊢
      exact subsetList_of_mem_findAllList p q ch m hm
theorem subsetList_of_mem_findAllList (p q : Node → Bool) :
    ∀ l : List Node, ∀ m ∈ findAllList q l, ∀ x ∈ findAll p m, x ∈ findAllList p l
  | [], m, hm => by simp [findAllList] at hm
  | n :: t, m, hm => by
      simp only [findAllList, List.mem_append] at hm ⊢
      rcases hm with (hm | hm) | hm
      · by_cases hq : q n
        · simp only [hq, if_pos, List.mem_singleton] at hm
          subst hm
          intro x hx
          exact Or.inl (Or.inr hx)
        · simp [hq] at hm
      · intro x hx
        exact Or.inl (Or.inr (subset_of_mem_findAll p q n m hm x hx))
      · intro x hx
        exact Or.inr (subsetList_of_mem_findAllList p q t m hm x hx)
end

/-- A found subtree of a paragraph-free tree is paragraph-free. -/
theorem findAll_eq_nil_of_mem {p q : Node → Bool} {n m : Node}
    (hm : m ∈ findAll q n) (h : findAll p n = []) : findAll p m = [] := by
  rw [List.eq_nil_iff_forall_not_mem]
  intro x hx
  have := subset_of_mem_findAll p q n m hm x hx
  rw [h] at this
  exact absurd this (List.not_mem_nil x)

/-- Tag tests are invariant under `removeAll`. -/
theorem isTag_removeAll (tg : String) (q : Node → Bool) (n : Node) :
    isTag tg (removeAll q n) = isTag tg n := by
  cases n <;> rfl

/-- Tag tests are invariant under `replaceFirst`. -/
theorem isTag_replaceFirst (tg : String) (q : Node → Bool) (f : Node → Node) (n : Node) :
    isTag tg ((replaceFirst q f n).1) = isTag tg n := by
  cases n <;> rfl

mutual
/-- Replacing a subtree by a match-free subtree cannot create matches of a
root-invariant predicate. -/
theorem findAll_replaceFirst_eq_nil (p q : Node → Bool) (f : Node → Node)
    (hf : ∀ m, findAll p m = [] → findAll p (f m) = []) (hroot : ∀ m, p (f m) = p m)
    (hrep : ∀ m, p ((replaceFirst q f m).1) = p m) :
    ∀ n : Node, findAll p n = [] → findAll p ((replaceFirst q f n).1) = []
  | .text _, _ => rfl
  | .elem t c a ch, h => by
      simp only [replaceFirst, findAll] at h ⊢
      exact findAllList_replaceFirstList_eq_nil p q f hf hroot hrep ch h
theorem findAllList_replaceFirstList_eq_nil (p q : Node → Bool) (f : Node → Node)
    (hf : ∀ m, findAll p m = [] → findAll p (f m) = []) (hroot : ∀ m, p (f m) = p m)
    (hrep : ∀ m, p ((replaceFirst q f m).1) = p m) :
    ∀ l : List Node, findAllList p l = [] → findAllList p ((replaceFirstList q f l).1) = []
  | [], _ => rfl
  | n :: t, h => by
      have hpn : p n = false := by
        by_cases hc : p n
        · exfalso; simp [findAllList, hc] at h
        · simpa using hc
      have h23 : findAll p n = [] ∧ findAllList p t = [] := by
        simpa [findAllList, hpn] using h
      by_cases hq : q n
      · simp only [replaceFirstList, hq, if_pos]
        simp only [findAllList, hroot n, hpn, Bool.false_eq_true, if_false,
          List.nil_append, List.append_eq_nil]
        exact ⟨hf n h23.1, h23.2⟩
      · simp only [replaceFirstList, hq, Bool.false_eq_true, if_false]
        by_cases hr : (replaceFirst q f n).2
        · simp only [hr, if_pos]
          have hroot' : p ((replaceFirst q f n).1) = false := by
            rw [hrep n]; exact hpn
          simp only [findAllList, hroot', Bool.false_eq_true, if_false, List.nil_append,
            List.append_eq_nil]
          exact ⟨findAll_replaceFirst_eq_nil p q f hf hroot hrep n h23.1, h23.2⟩
        · simp only [hr, Bool.false_eq_true, if_false]
          simp only [findAllList, hpn, Bool.false_eq_true, if_false, List.nil_append,
            List.append_eq_nil]
          exact ⟨h23.1, findAllList_replaceFirstList_eq_nil p q f hf hroot hrep t h23.2⟩
end

/-- If the loop input consists of paragraph-free containers, credaily's
strategy-4 scan accepts none of them. -/
theorem strat4_go_eq_empty :
    ∀ l : List Node, (∀ d ∈ l, findAll (isTag "p") d = []) → Credaily.strat4_go l = ""
  | [], _ => rfl
  | d :: t, h => by
      have hd := h d (List.mem_cons_self d t)
      simp only [Credaily.strat4_go, hd]
      exact strat4_go_eq_empty t (fun x hx => h x (List.mem_cons_of_mem d hx))

/-- Inversion for the listing loop: a returned record comes from some item on
which the per-item body produced exactly that record. -/
theorem extractItems_mem (f : Node → Except Unit (Option Article)) :
    ∀ (l : List Node) (rs : List Article), extractItems f l = .ok rs →
      ∀ r ∈ rs, ∃ i ∈ l, f i = .ok (some r)
  | [], rs, h => by
      simp only [extractItems] at h
      cases h
      intro r hr
      simp at hr
  | i :: t, rs, h => by
      simp only [extractItems, bind, Except.bind] at h
      cases hfi : f i with
      | error e => rw [hfi] at h; cases h
      | ok r? =>
        rw [hfi] at h
        cases hrest : extractItems f t with
        | error e => rw [hrest] at h; cases h
        | ok rest =>
          rw [hrest] at h
          cases r? with
          | none =>
            simp only [pure, Except.pure, Except.ok.injEq] at h
            subst h
            intro r hr
            obtain ⟨j, hj, hfj⟩ := extractItems_mem f t rest hrest r hr
            exact ⟨j, List.mem_cons_of_mem i hj, hfj⟩
          | some r0 =>
            simp only [pure, Except.pure, Except.ok.injEq] at h
            subst h
            intro r hr
            rcases List.mem_cons.mp hr with rfl | hr
            · exact ⟨i, List.mem_cons_self i t, hfi⟩
            · obtain ⟨j, hj, hfj⟩ := extractItems_mem f t rest hrest r hr
              exact ⟨j, List.mem_cons_of_mem i hj, hfj⟩

/-! ## Storage lemmas -/

namespace DbConnector

theorem updateRow_link (a : Article) (row : Row) : (updateRow a row).link = row.link := rfl

/-- The conflict-update map commutes with filtering on the conflicting link. -/
theorem filter_map_update (l : List Row) (a : Article) :
    (l.map (fun row => if row.link == a.link then updateRow a row else row)).filter
        (fun row => row.link == a.link)
      = (l.filter (fun row => row.link == a.link)).map (updateRow a) := by
  induction l with
  | nil => rfl
  | cons x t ih =>
    by_cases hx : x.link = a.link
    · simp only [List.map_cons, List.filter_cons, hx, beq_self_eq_true, if_pos, if_true,
        updateRow_link, ih]
    · have hb : (x.link == a.link) = false := beq_eq_false_iff_ne.mpr hx
      simp only [List.map_cons, List.filter_cons, hb, Bool.false_eq_true, if_false, ih]

/-- After one upsert there is exactly one row carrying the record's link. -/
theorem upsert_linkRows (db : DB) (now : Nat) (a : Article)
    (h : (linkRows db a.link).length ≤ 1) :
    ∃ r1, r1 ∈ (upsert_sql db now a).rows ∧ linkRows (upsert_sql db now a) a.link = [r1] := by
  unfold upsert_sql linkRows
  by_cases hany : db.rows.any (fun row => row.link == a.link)
  · simp only [hany, if_true, if_pos]
    rw [filter_map_update]
    obtain ⟨r0, hr0⟩ : ∃ r0, db.rows.filter (fun row => row.link == a.link) = [r0] := by
      obtain ⟨x, hx, hpx⟩ := List.any_eq_true.mp hany
      have hxf : x ∈ db.rows.filter (fun row => row.link == a.link) :=
        List.mem_filter.mpr ⟨hx, hpx⟩
      cases hf : db.rows.filter (fun row => row.link == a.link) with
      | nil => rw [hf] at hxf; cases hxf
      | cons y ys =>
        cases hys : ys with
        | nil => exact ⟨y, rfl⟩
        | cons z zs =>
          exfalso
          have := h
          unfold linkRows at this
          rw [hf, hys] at this
          simp at this
    rw [hr0]
    refine ⟨updateRow a r0, ?_, rfl⟩
    have hr0f : r0 ∈ db.rows.filter (fun row => row.link == a.link) := by
      rw [hr0]; exact List.mem_singleton_self r0
    have hr0mem : r0 ∈ db.rows := (List.mem_filter.mp hr0f).1
    have hr0link : (r0.link == a.link) = true := (List.mem_filter.mp hr0f).2
    exact List.mem_map.mpr ⟨r0, hr0mem, by rw [if_pos hr0link]⟩
  · simp only [hany, Bool.false_eq_true, if_false]
    have hf : db.rows.filter (fun row => row.link == a.link) = [] := by
      rw [List.filter_eq_nil_iff]
      intro x hx
      intro hpx
      exact hany (List.any_eq_true.mpr ⟨x, hx, hpx⟩)
    rw [List.filter_append, hf]
    simp only [List.nil_append, List.filter_cons, List.filter_nil]
    refine ⟨newRow db.nextId now a, ?_, ?_⟩
    · exact List.mem_append.mpr (Or.inr (List.mem_singleton_self _))
    · have : ((newRow db.nextId now a).link == a.link) = true := by
        simp [newRow]
      rw [this]
      rfl

/-- Upserting against a state holding exactly one row for the link updates
that row in place. -/
theorem upsert_of_linkRows_single (db : DB) (now : Nat) (a : Article) (r1 : Row)
    (h : linkRows db a.link = [r1]) :
    linkRows (upsert_sql db now a) a.link = [updateRow a r1] := by
  have hmem : r1 ∈ db.rows ∧ (r1.link == a.link) = true := by
    have hr1f : r1 ∈ db.rows.filter (fun row => row.link == a.link) := by
      have : r1 ∈ linkRows db a.link := by rw [h]; exact List.mem_singleton_self r1
      simpa [linkRows] using this
    exact List.mem_filter.mp hr1f
  have hany : db.rows.any (fun row => row.link == a.link) = true :=
    List.any_eq_true.mpr ⟨r1, hmem.1, hmem.2⟩
  unfold upsert_sql linkRows
  simp only [hany, if_true, if_pos]
  rw [filter_map_update]
  unfold linkRows at h
  rw [h]
  rfl

end DbConnector

/-! ## Claims about the ingestion store -/

/-- C1: upserting the same record twice leaves exactly one row for its link;
that row's mutable fields equal the record's values, and its surrogate id and
creation timestamp are unchanged by the second upsert. -/
theorem claim_C1 (db : DbConnector.DB) (now1 now2 : Nat) (a : Article)
    (h : (DbConnector.linkRows db a.link).length ≤ 1) :
    (DbConnector.linkRows
        (DbConnector.upsert_sql (DbConnector.upsert_sql db now1 a) now2 a) a.link).length = 1 ∧
    ∀ r2 ∈ (DbConnector.upsert_sql (DbConnector.upsert_sql db now1 a) now2 a).rows,
      r2.link = a.link →
        (r2.title = a.title ∧ r2.summary = a.summary ∧ r2.author = a.author ∧
         r2.author_title = a.author_title ∧ r2.date = a.date ∧
         r2.categories = DbConnector.joinCats a.categories ∧ r2.content = a.content ∧
         r2.source = a.source) ∧
        ∃ r1 ∈ (DbConnector.upsert_sql db now1 a).rows,
          r1.link = a.link ∧ r2.id = r1.id ∧ r2.created_at = r1.created_at := by
  obtain ⟨r1, hr1mem, hr1⟩ := DbConnector.upsert_linkRows db now1 a h
  have hdb2 := DbConnector.upsert_of_linkRows_single (DbConnector.upsert_sql db now1 a) now2 a r1 hr1
  constructor
  · rw [hdb2]; rfl
  · intro r2 hr2 hlink
    have hr2f : r2 ∈ DbConnector.linkRows
        (DbConnector.upsert_sql (DbConnector.upsert_sql db now1 a) now2 a) a.link := by
      unfold DbConnector.linkRows
      exact List.mem_filter.mpr ⟨hr2, by simp [hlink]⟩
    rw [hdb2] at hr2f
    have hr2eq : r2 = DbConnector.updateRow a r1 := by simpa using hr2f
    subst hr2eq
    have hr1link : r1.link = a.link := by
      have hmem1 : r1 ∈ DbConnector.linkRows (DbConnector.upsert_sql db now1 a) a.link := by
        rw [hr1]; exact List.mem_singleton_self r1
      unfold DbConnector.linkRows at hmem1
      have := (List.mem_filter.mp hmem1).2
      simpa using this
    exact ⟨⟨rfl, rfl, rfl, rfl, rfl, rfl, rfl, rfl⟩, r1, hr1mem, hr1link, rfl, rfl⟩

/-- The article ingested twice in the C1 witness. -/
def artC1 : Article :=
  { link := "https://www.multifamilydive.com/news/a", title := "T", summary := "S",
    author := "A", author_title := "AT", date := "D", categories := ["Finance", "Policy"],
    content := "C", source := "multifamilydive" }

/-- Witness for C1 at the empty table. -/
theorem claim_C1_witness :
    (DbConnector.linkRows
        (DbConnector.upsert_sql (DbConnector.upsert_sql ⟨[], 1⟩ 10 artC1) 11 artC1)
        artC1.link).length = 1 ∧
    ∀ r2 ∈ (DbConnector.upsert_sql (DbConnector.upsert_sql ⟨[], 1⟩ 10 artC1) 11 artC1).rows,
      r2.link = artC1.link →
        (r2.title = artC1.title ∧ r2.summary = artC1.summary ∧ r2.author = artC1.author ∧
         r2.author_title = artC1.author_title ∧ r2.date = artC1.date ∧
         r2.categories = DbConnector.joinCats artC1.categories ∧ r2.content = artC1.content ∧
         r2.source = artC1.source) ∧
        ∃ r1 ∈ (DbConnector.upsert_sql ⟨[], 1⟩ 10 artC1).rows,
          r1.link = artC1.link ∧ r2.id = r1.id ∧ r2.created_at = r1.created_at :=
  claim_C1 ⟨[], 1⟩ 10 11 artC1 (by decide)

/-- A failing record's iteration leaves both the state and the tally alone. -/
theorem insert_articles_step_fail (storageFails : Article → Bool) (now : Nat)
    (acc : DbConnector.DB × Nat) (a : Article) (h : storageFails a = true) :
    DbConnector.insert_articles_step storageFails now acc a = acc := by
  simp [DbConnector.insert_articles_step, DbConnector.insert_multifamilydive_article, h]

/-- A non-failing record's iteration upserts it and bumps the tally. -/
theorem insert_articles_step_ok (storageFails : Article → Bool) (now : Nat)
    (acc : DbConnector.DB × Nat) (a : Article) (h : storageFails a = false) :
    DbConnector.insert_articles_step storageFails now acc a
      = (DbConnector.upsert_sql acc.1 now a, acc.2 + 1) := by
  simp [DbConnector.insert_articles_step, DbConnector.insert_multifamilydive_article, h]

/-- Batch loop invariant: the tally adds the number of non-failing records and
the final state folds the successful upserts only. -/
theorem insert_articles_loop (storageFails : Article → Bool) (now : Nat) :
    ∀ (arts : List Article) (db : DbConnector.DB) (c : Nat),
      arts.foldl (DbConnector.insert_articles_step storageFails now) (db, c)
      = ((arts.filter (fun a => !(storageFails a))).foldl
            (fun d a => DbConnector.upsert_sql d now a) db,
         c + (arts.filter (fun a => !(storageFails a))).length)
  | [], db, c => by simp
  | a :: t, db, c => by
      by_cases hfa : storageFails a
      · rw [List.foldl_cons, insert_articles_step_fail storageFails now (db, c) a hfa,
          List.filter_cons]
        simp only [hfa, Bool.not_true, Bool.false_eq_true, if_false]
        exact insert_articles_loop storageFails now t db c
      · have hfa' : storageFails a = false := by simpa using hfa
        rw [List.foldl_cons, insert_articles_step_ok storageFails now (db, c) a hfa',
          List.filter_cons]
        simp only [hfa', Bool.not_false, if_true]
        rw [insert_articles_loop storageFails now t (DbConnector.upsert_sql db now a) (c + 1)]
        refine Prod.ext rfl ?_
        simp only [List.length_cons]
        omega

/-- C7: the batch insert upserts each record independently, returns the count
of successful upserts, and a failing record rolls back only itself — the
final state is exactly the fold of the non-failing records' upserts. -/
theorem claim_C7 (storageFails : Article → Bool) (db : DbConnector.DB) (now : Nat)
    (arts : List Article) :
    (DbConnector.insert_multifamilydive_articles storageFails db now arts).2
      = (arts.filter (fun a => !(storageFails a))).length ∧
    (DbConnector.insert_multifamilydive_articles storageFails db now arts).1
      = (arts.filter (fun a => !(storageFails a))).foldl
          (fun d a => DbConnector.upsert_sql d now a) db := by
  unfold DbConnector.insert_multifamilydive_articles
  rw [insert_articles_loop]
  exact ⟨by simp, rfl⟩

/-- C9 fails at the empty category sequence: the stored string is `""`, and
splitting `""` on the delimiter yields `[""]`, not `[]`, even though the
no-delimiter side condition holds vacuously. -/
theorem claim_C9_counterexample :
    (∀ c ∈ ([] : List String), (',' ∈ c.data) = False) ∧
    DbConnector.splitCats (DbConnector.joinCats []) ≠ [] := by
  constructor
  · intro c hc
    cases hc
  · decide

/-- C9 (amended to non-empty sequences): encoding a non-empty category
sequence whose elements avoid the comma delimiter and splitting it back
yields the original sequence in order. -/
theorem claim_C9 (cats : List String) (h0 : cats ≠ [])
    (h1 : ∀ c ∈ cats, ',' ∉ c.data) :
    DbConnector.splitCats (DbConnector.joinCats cats) = cats := by
  unfold DbConnector.splitCats DbConnector.joinCats
  have hdata : (String.mk (List.intercalate [','] (cats.map String.data))).data
      = List.intercalate [','] (cats.map String.data) := rfl
  rw [hdata]
  have hx : ∀ l ∈ cats.map String.data, ',' ∉ l := by
    intro l hl
    obtain ⟨c, hc, rfl⟩ := List.mem_map.mp hl
    exact h1 c hc
  have hls : cats.map String.data ≠ [] := by
    intro hmap
    exact h0 (List.map_eq_nil_iff.mp hmap)
  have hsplit := List.splitOn_intercalate (cats.map String.data) ',' hx hls
  rw [hsplit, List.map_map]
  have : ((fun cs => String.mk cs) ∘ String.data) = id := by
    funext c
    rfl
  rw [this, List.map_id]

/-- Witness for C9 at the spec's example sequence. -/
theorem claim_C9_witness :
    DbConnector.splitCats (DbConnector.joinCats ["Finance", "Policy"]) = ["Finance", "Policy"] :=
  claim_C9 ["Finance", "Policy"] (by decide) (by decide)

/-! ## Claims about the credaily content cascade -/

/-- C2: when strategy 1 extracts non-empty text, the cascade short-circuits:
the resolved record is the input with exactly strategy 1's text as content,
for every markup — in particular strategies 2-5 cannot alter the result. -/
theorem claim_C2 (doc : Node) (r : Article) (h : Credaily.strat1 doc ≠ "") :
    Credaily.parse_brief_content doc r = { r with content := Credaily.strat1 doc } := by
  unfold Credaily.parse_brief_content
  rw [if_pos h]

/-- C2 witness markup: strategy 1's container holds one paragraph, while a
strategy-5-only paragraph with different (long) text sits outside it. -/
def docC2 : Node :=
  .elem "html" [] []
    [.elem "body" [] []
      [.elem "div" ["c-article__content"] [] [.elem "p" [] [] [.text "Hello world."]],
       .elem "p" [] [] [.text "A completely different strategy-five-only paragraph text."]]]

/-- Witness for C2: the resolved content is exactly strategy 1's text. -/
theorem claim_C2_witness :
    Credaily.strat1 docC2 ≠ "" ∧
    Credaily.parse_brief_content docC2 {} = { ({} : Article) with content := Credaily.strat1 docC2 } :=
  ⟨by decide, claim_C2 docC2 {} (by decide)⟩

/-- C8: in the heuristic-fallback stage, a sole loosely-matched container with
exactly one paragraph is rejected (the stage yields empty content), and one
with at least two paragraphs is accepted (the stage yields its joined text). -/
theorem claim_C8 (doc d : Node) (h : findAll Credaily.loosePred doc = [d]) :
    ((findAll (isTag "p") d).length = 1 → Credaily.strat4 doc = "") ∧
    (2 ≤ (findAll (isTag "p") d).length →
      Credaily.strat4 doc = joinTexts (findAll (isTag "p") d)) := by
  unfold Credaily.strat4
  rw [h]
  constructor
  · intro h1
    simp [Credaily.strat4_go, h1]
  · intro h2
    have hne : (findAll (isTag "p") d).isEmpty = false := by
      cases hps : findAll (isTag "p") d with
      | nil => rw [hps] at h2; simp at h2
      | cons x xs => rfl
    simp [Credaily.strat4_go, hne, h2]

/-- C8 witness markup: a single loose container with one paragraph. -/
def docC8a : Node :=
  .elem "html" [] []
    [.elem "div" ["article-box"] [] [.elem "p" [] [] [.text "Just one teaser."]]]

/-- The sole loose container of `docC8a`. -/
def divC8a : Node := .elem "div" ["article-box"] [] [.elem "p" [] [] [.text "Just one teaser."]]

/-- C8 witness markup: a single loose container with two paragraphs. -/
def docC8b : Node :=
  .elem "html" [] []
    [.elem "div" ["main-content"] []
      [.elem "p" [] [] [.text "First real paragraph."],
       .elem "p" [] [] [.text "Second real paragraph."]]]

/-- The sole loose container of `docC8b`. -/
def divC8b : Node :=
  .elem "div" ["main-content"] []
    [.elem "p" [] [] [.text "First real paragraph."],
     .elem "p" [] [] [.text "Second real paragraph."]]

/-- Witness for C8: one paragraph is rejected, two are accepted. -/
theorem claim_C8_witness :
    Credaily.strat4 docC8a = "" ∧
    Credaily.strat4 docC8b = joinTexts (findAll (isTag "p") divC8b) :=
  ⟨(claim_C8 docC8a divC8a rfl).1 (by decide),
   (claim_C8 docC8b divC8b rfl).2 (by decide)⟩

/-! ## Paragraph-free markup: every credaily strategy yields empty content -/

/-- Strategy 1 on paragraph-free markup. -/
theorem strat1_of_noP (doc : Node) (h : findAll (isTag "p") doc = []) :
    Credaily.strat1 doc = "" := by
  unfold Credaily.strat1
  cases hf : findFirst (fun n => isTag "div" n && hasClass "c-article__content" n) doc with
  | none => rfl
  | some el =>
      have hel : findAll (isTag "p") el = [] :=
        findAll_eq_nil_of_mem (findFirst_mem hf) h
      simp [hel]

/-- Strategy 2 on paragraph-free markup. -/
theorem strat2_of_noP (doc : Node) (h : findAll (isTag "p") doc = []) :
    Credaily.strat2 doc = "" := by
  unfold Credaily.strat2
  cases hf : findFirst (fun n => isTag "div" n && hasClass "c-article__body" n) doc with
  | none => rfl
  | some el =>
      have hel : findAll (isTag "p") el = [] :=
        findAll_eq_nil_of_mem (findFirst_mem hf) h
      simp [hel]

/-- Strategy 3 on paragraph-free markup yields no text, and its decompose
keeps the soup paragraph-free. -/
theorem strat3_of_noP (doc : Node) (h : findAll (isTag "p") doc = []) :
    (Credaily.strat3 doc).1 = "" ∧ findAll (isTag "p") (Credaily.strat3 doc).2 = [] := by
  unfold Credaily.strat3
  cases hf : findFirst Credaily.mainPred doc with
  | none => exact ⟨rfl, h⟩
  | some m =>
      have hm : findAll (isTag "p") m = [] :=
        findAll_eq_nil_of_mem (findFirst_mem hf) h
      have hm' : findAll (isTag "p") (removeAll (isTagIn ["header", "nav", "aside"]) m) = [] :=
        findAll_removeAll_eq_nil _ _ (fun x => isTag_removeAll "p" _ x) m hm
      refine ⟨by simp [hm'], ?_⟩
      exact findAll_replaceFirst_eq_nil _ _ _
        (fun x hx => findAll_removeAll_eq_nil _ _ (fun y => isTag_removeAll "p" _ y) x hx)
        (fun x => isTag_removeAll "p" _ x)
        (fun x => isTag_replaceFirst "p" _ _ x) doc h

/-- Strategy 4 on paragraph-free markup. -/
theorem strat4_of_noP (doc : Node) (h : findAll (isTag "p") doc = []) :
    Credaily.strat4 doc = "" := by
  unfold Credaily.strat4
  exact strat4_go_eq_empty _
    (fun d hd => findAll_eq_nil_of_mem hd h)

/-- The last-resort body strategy on paragraph-free markup. -/
theorem bodyFallback_of_noP (chrome : List String) (doc : Node)
    (h : findAll (isTag "p") doc = []) : Credaily.bodyFallback chrome doc = "" := by
  unfold Credaily.bodyFallback
  cases hf : findFirst (isTag "body") doc with
  | none => rfl
  | some b =>
      have hb : findAll (isTag "p") b = [] :=
        findAll_eq_nil_of_mem (findFirst_mem hf) h
      have hb' : findAll (isTag "p") (removeAll (isTagIn chrome) b) = [] :=
        findAll_removeAll_eq_nil _ _ (fun x => isTag_removeAll "p" _ x) b hb
      simp [hb']

/-- C5: listing extraction returns the empty sequence when the expected
container structure is absent, and content resolution on markup with no
paragraphs at all returns the input record with empty content — a valid
result, not a failure (exceptions are confined to the embedded per-item
KeyError, which the function converts to `[]`). -/
theorem claim_C5 :
    (∀ doc : Node, findAll Credaily.itemPred doc = [] →
      Credaily.parse_brief_links doc = []) ∧
    (∀ (doc : Node) (r : Article), findAll (isTag "p") doc = [] →
      Credaily.parse_brief_content doc r = { r with content := "" }) := by
  constructor
  · intro doc h
    unfold Credaily.parse_brief_links
    rw [h]
    rfl
  · intro doc r h
    have h1 := strat1_of_noP doc h
    have h2 := strat2_of_noP doc h
    have h3 := strat3_of_noP doc h
    have h4 := strat4_of_noP _ h3.2
    have h5 := bodyFallback_of_noP ["header", "footer", "nav", "aside"] _ h3.2
    unfold Credaily.parse_brief_content
    simp only [h1, h2, h3.1, h4, h5, ne_eq, not_true_eq_false, if_false]

/-- C5 witness markup: no listing containers and no paragraphs at all. -/
def docC5 : Node := .elem "html" [] [] [.elem "body" [] [] [.elem "div" ["menu"] [] []]]

/-- Witness for C5 at structure-less markup. -/
theorem claim_C5_witness :
    Credaily.parse_brief_links docC5 = [] ∧
    Credaily.parse_brief_content docC5 {} = { ({} : Article) with content := "" } :=
  ⟨claim_C5.1 docC5 rfl, claim_C5.2 docC5 {} rfl⟩

/-! ## Claims about listing extraction -/

/-- C6: on a listing with exactly two entries of which the first carries the
ad marker and the second is a proper entry, extraction returns exactly one
record; its link is the anchor's href, absolutized against the site base
exactly when the href does not already start with `http`. -/
theorem claim_C6 (doc ad good te a : Node) (href : String)
    (hitems : findAll Multifamilydive.itemPred doc = [ad, good])
    (had : hasClass "feed-item-ad" ad = true)
    (hgood : hasClass "feed-item-ad" good = false)
    (hte : findFirst Multifamilydive.titlePred good = some te)
    (ha : findFirst (isTag "a") te = some a)
    (hhref : getAttr "href" a = some href) :
    (Multifamilydive.parse_article_links doc).length = 1 ∧
    ∀ rec ∈ Multifamilydive.parse_article_links doc,
      rec.title = (getText a).pyStrip ∧
      (href.pyStartsWith "http" = false →
        rec.link = "https://www.multifamilydive.com" ++ href) ∧
      (href.pyStartsWith "http" = true → rec.link = href) := by
  have hrad : Multifamilydive.record_of_item ad = .ok none := by
    unfold Multifamilydive.record_of_item
    simp [had]
  obtain ⟨rec, hrec, hlink, htitle⟩ : ∃ rec, Multifamilydive.record_of_item good = .ok (some rec) ∧
      rec.link = Multifamilydive.absolutize href ∧ rec.title = (getText a).pyStrip := by
    unfold Multifamilydive.record_of_item
    simp only [hgood, Bool.false_eq_true, if_false, hte, ha, hhref]
    exact ⟨_, rfl, rfl, rfl⟩
  have hparse : Multifamilydive.parse_article_links doc = [rec] := by
    unfold Multifamilydive.parse_article_links
    rw [hitems]
    simp only [extractItems, hrad, hrec, bind, Except.bind, pure, Except.pure]
  constructor
  · rw [hparse]; rfl
  · intro rec' hrec'
    rw [hparse] at hrec'
    have hre : rec' = rec := by simpa using hrec'
    subst hre
    refine ⟨htitle, ?_, ?_⟩
    · intro hrel
      rw [hlink]
      unfold Multifamilydive.absolutize
      simp [hrel]
    · intro habs
      rw [hlink]
      unfold Multifamilydive.absolutize
      simp [habs]

/-- C6 witness listing: one ad entry, one proper entry with a relative href. -/
def docC6 : Node :=
  .elem "ul" [] []
    [.elem "li" ["feed__item", "feed-item-ad"] [] [.text "Sponsored"],
     .elem "li" ["feed__item"] []
       [.elem "h3" ["feed__title"] []
         [.elem "a" [] [("href", "/news/article-1")] [.text "Real headline"]]]]

/-- The ad entry of `docC6`. -/
def adC6 : Node := .elem "li" ["feed__item", "feed-item-ad"] [] [.text "Sponsored"]

/-- The proper entry of `docC6`. -/
def goodC6 : Node :=
  .elem "li" ["feed__item"] []
    [.elem "h3" ["feed__title"] []
      [.elem "a" [] [("href", "/news/article-1")] [.text "Real headline"]]]

/-- The title element of `goodC6`. -/
def teC6 : Node :=
  .elem "h3" ["feed__title"] []
    [.elem "a" [] [("href", "/news/article-1")] [.text "Real headline"]]

/-- The title anchor of `goodC6`. -/
def aC6 : Node := .elem "a" [] [("href", "/news/article-1")] [.text "Real headline"]

/-- Witness for C6: the ad is skipped and the relative href is absolutized. -/
theorem claim_C6_witness :
    (Multifamilydive.parse_article_links docC6).length = 1 ∧
    ∀ rec ∈ Multifamilydive.parse_article_links docC6,
      rec.title = (getText aC6).pyStrip ∧
      (String.pyStartsWith "/news/article-1" "http" = false →
        rec.link = "https://www.multifamilydive.com" ++ "/news/article-1") ∧
      (String.pyStartsWith "/news/article-1" "http" = true → rec.link = "/news/article-1") :=
  claim_C6 docC6 adC6 goodC6 teC6 aC6 "/news/article-1" rfl rfl rfl rfl rfl rfl

/-- Inversion of credaily's per-item body: a produced record's identity fields
come from the title element's anchor. -/
theorem cre_record_inv (item : Node) (r : Article)
    (h : Credaily.record_of_item item = .ok (some r)) :
    ∃ te a href, findFirst Credaily.titlePred item = some te ∧
      findFirst (isTag "a") te = some a ∧ getAttr "href" a = some href ∧
      r.link = href ∧ r.title = (getText a).pyStrip := by
  unfold Credaily.record_of_item at h
  cases h1 : findFirst Credaily.titlePred item with
  | none => rw [h1] at h; simp at h
  | some te =>
    simp only [h1] at h
    cases h2 : findFirst (isTag "a") te with
    | none => rw [h2] at h; simp at h
    | some a =>
      simp only [h2] at h
      cases h3 : getAttr "href" a with
      | none => rw [h3] at h; simp at h
      | some href =>
        simp only [h3, Except.ok.injEq, Option.some.injEq] at h
        exact ⟨te, a, href, rfl, h2, h3, by rw [← h], by rw [← h]⟩

/-- Inversion of multifamilydive's per-item body: a produced record comes from
a non-ad item, and its identity fields come from the title anchor. -/
theorem mfd_record_inv (item : Node) (r : Article)
    (h : Multifamilydive.record_of_item item = .ok (some r)) :
    ∃ te a href, findFirst Multifamilydive.titlePred item = some te ∧
      findFirst (isTag "a") te = some a ∧ getAttr "href" a = some href ∧
      r.link = Multifamilydive.absolutize href ∧ r.title = (getText a).pyStrip := by
  unfold Multifamilydive.record_of_item at h
  by_cases had : hasClass "feed-item-ad" item
  · rw [if_pos had] at h; simp at h
  · rw [if_neg had] at h
    cases h1 : findFirst Multifamilydive.titlePred item with
    | none => rw [h1] at h; simp at h
    | some te =>
      simp only [h1] at h
      cases h2 : findFirst (isTag "a") te with
      | none => rw [h2] at h; simp at h
      | some a =>
        simp only [h2] at h
        cases h3 : getAttr "href" a with
        | none => rw [h3] at h; simp at h
        | some href =>
          simp only [h3, Except.ok.injEq, Option.some.injEq] at h
          exact ⟨te, a, href, rfl, h2, h3, by rw [← h], by rw [← h]⟩

/-- Inversion of multihousing's per-item body: a produced record's identity
fields come from the title element's anchor. -/
theorem mh_record_inv (item : Node) (r : Article)
    (h : Multihousing.record_of_item item = .ok (some r)) :
    ∃ te a href, findFirst Multihousing.titlePred item = some te ∧
      findFirst (isTag "a") te = some a ∧ getAttr "href" a = some href ∧
      r.link = href ∧ r.title = (getText a).pyStrip := by
  unfold Multihousing.record_of_item at h
  cases h1 : findFirst Multihousing.titlePred item with
  | none => rw [h1] at h; simp at h
  | some te =>
    simp only [h1] at h
    cases h2 : findFirst (isTag "a") te with
    | none => rw [h2] at h; simp at h
    | some a =>
      simp only [h2] at h
      cases h3 : getAttr "href" a with
      | none => rw [h3] at h; simp at h
      | some href =>
        simp only [h3] at h
        refine ⟨te, a, href, rfl, h2, h3, ?_⟩
        cases h4 : findFirst (fun n => isTag "div" n && hasClass "fl-post-image" n) item with
        | none =>
          simp only [h4, Except.ok.injEq, Option.some.injEq] at h
          exact ⟨by rw [← h], by rw [← h]⟩
        | some ie =>
          simp only [h4] at h
          cases h5 : findFirst (isTag "img") ie with
          | none =>
            simp only [h5, Except.ok.injEq, Option.some.injEq] at h
            exact ⟨by rw [← h], by rw [← h]⟩
          | some img =>
            simp only [h5] at h
            cases h6 : getAttr "src" img with
            | none => rw [h6] at h; simp at h
            | some src =>
              simp only [h6, Except.ok.injEq, Option.some.injEq] at h
              exact ⟨by rw [← h], by rw [← h]⟩

/-- C10: every record a listing parser returns originates in a listing entry
holding a title element with an anchor, from which the record's link and
title are taken; entries without such structure yield no record. -/
theorem claim_C10 :
    (∀ (doc : Node) (r : Article), r ∈ Credaily.parse_brief_links doc →
      ∃ item ∈ findAll Credaily.itemPred doc, ∃ te a href,
        findFirst Credaily.titlePred item = some te ∧
        findFirst (isTag "a") te = some a ∧
        getAttr "href" a = some href ∧ r.link = href ∧ r.title = (getText a).pyStrip) ∧
    (∀ (doc : Node) (r : Article), r ∈ Multifamilydive.parse_article_links doc →
      ∃ item ∈ findAll Multifamilydive.itemPred doc, ∃ te a href,
        findFirst Multifamilydive.titlePred item = some te ∧
        findFirst (isTag "a") te = some a ∧
        getAttr "href" a = some href ∧ r.link = Multifamilydive.absolutize href ∧
        r.title = (getText a).pyStrip) ∧
    (∀ (doc : Node) (r : Article), r ∈ Multihousing.parse_brief_links doc →
      ∃ item ∈ findAll Multihousing.itemPred doc, ∃ te a href,
        findFirst Multihousing.titlePred item = some te ∧
        findFirst (isTag "a") te = some a ∧
        getAttr "href" a = some href ∧ r.link = href ∧ r.title = (getText a).pyStrip) := by
  refine ⟨?_, ?_, ?_⟩
  · intro doc r hr
    unfold Credaily.parse_brief_links at hr
    cases hex : extractItems Credaily.record_of_item (findAll Credaily.itemPred doc) with
    | error e => rw [hex] at hr; simp at hr
    | ok l =>
      rw [hex] at hr
      obtain ⟨item, hitem, hfi⟩ := extractItems_mem Credaily.record_of_item _ l hex r hr
      exact ⟨item, hitem, cre_record_inv item r hfi⟩
  · intro doc r hr
    unfold Multifamilydive.parse_article_links at hr
    cases hex : extractItems Multifamilydive.record_of_item
        (findAll Multifamilydive.itemPred doc) with
    | error e => rw [hex] at hr; simp at hr
    | ok l =>
      rw [hex] at hr
      obtain ⟨item, hitem, hfi⟩ :=
        extractItems_mem Multifamilydive.record_of_item _ l hex r hr
      exact ⟨item, hitem, mfd_record_inv item r hfi⟩
  · intro doc r hr
    unfold Multihousing.parse_brief_links at hr
    cases hex : extractItems Multihousing.record_of_item (findAll Multihousing.itemPred doc) with
    | error e => rw [hex] at hr; simp at hr
    | ok l =>
      rw [hex] at hr
      obtain ⟨item, hitem, hfi⟩ := extractItems_mem Multihousing.record_of_item _ l hex r hr
      exact ⟨item, hitem, mh_record_inv item r hfi⟩

/-- C10 witness listing for the credaily variant. -/
def docC10a : Node :=
  .elem "div" [] []
    [.elem "div" ["c-brief-list__item"] []
      [.elem "h5" ["c-brief-list__item-title"] []
        [.elem "a" [] [("href", "https://credaily.com/b1")] [.text "Brief One"]]]]

/-- The record the credaily variant extracts from `docC10a`. -/
def recC10a : Article := { link := "https://credaily.com/b1", title := "Brief One" }

/-- C10 witness listing for the multifamilydive variant. -/
def docC10b : Node :=
  .elem "ul" [] []
    [.elem "li" ["feed__item"] []
      [.elem "h3" ["feed__title"] []
        [.elem "a" [] [("href", "https://www.multifamilydive.com/news/a2")] [.text "Head Two"]]]]

/-- The record the multifamilydive variant extracts from `docC10b`. -/
def recC10b : Article :=
  { link := "https://www.multifamilydive.com/news/a2", title := "Head Two",
    source := "multifamilydive" }

/-- C10 witness listing for the multihousing variant. -/
def docC10c : Node :=
  .elem "div" [] []
    [.elem "div" ["cpe-posts-category-page"] []
      [.elem "h2" ["fl-post-title"] []
        [.elem "a" [] [("href", "https://www.multihousingnews.com/p3")] [.text "Post Three"]]]]

/-- The record the multihousing variant extracts from `docC10c`. -/
def recC10c : Article := { link := "https://www.multihousingnews.com/p3", title := "Post Three" }

/-- Witness for C10: each variant's extracted record traces back to a title
anchor in some listing entry. -/
theorem claim_C10_witness :
    (∃ item ∈ findAll Credaily.itemPred docC10a, ∃ te a href,
      findFirst Credaily.titlePred item = some te ∧
      findFirst (isTag "a") te = some a ∧
      getAttr "href" a = some href ∧ recC10a.link = href ∧
      recC10a.title = (getText a).pyStrip) ∧
    (∃ item ∈ findAll Multifamilydive.itemPred docC10b, ∃ te a href,
      findFirst Multifamilydive.titlePred item = some te ∧
      findFirst (isTag "a") te = some a ∧
      getAttr "href" a = some href ∧ recC10b.link = Multifamilydive.absolutize href ∧
      recC10b.title = (getText a).pyStrip) ∧
    (∃ item ∈ findAll Multihousing.itemPred docC10c, ∃ te a href,
      findFirst Multihousing.titlePred item = some te ∧
      findFirst (isTag "a") te = some a ∧
      getAttr "href" a = some href ∧ recC10c.link = href ∧
      recC10c.title = (getText a).pyStrip) :=
  ⟨claim_C10.1 docC10a recC10a (by decide),
   claim_C10.2.1 docC10b recC10b (by decide),
   claim_C10.2.2 docC10c recC10c (by decide)⟩

/-! ## Shape lemmas for the multihousing in-place metadata fills -/

namespace Multihousing

theorem fill_title_shape (m : Node) (r : Article) :
    ∃ t, fill_title m r = { r with title := t } := by
  unfold fill_title
  by_cases h : r.title = ""
  · rw [if_pos h]
    cases findFirst (fun n => isTag "h1" n && hasClass "fl-heading" n) m with
    | none => exact ⟨r.title, rfl⟩
    | some te => exact ⟨_, rfl⟩
  · rw [if_neg h]
    exact ⟨r.title, rfl⟩

theorem fill_title_of_ne (m : Node) (r : Article) (h : r.title ≠ "") :
    fill_title m r = r := by
  unfold fill_title
  rw [if_neg h]

theorem fill_author_shape (m : Node) (r : Article) :
    ∃ a, fill_author m r = { r with author := a } := by
  unfold fill_author
  by_cases h : r.author = ""
  · rw [if_pos h]
    cases findFirst (fun n => isTag "a" n && hasClass "tdb-author-name" n) m with
    | none => exact ⟨r.author, rfl⟩
    | some ae => exact ⟨_, rfl⟩
  · rw [if_neg h]
    exact ⟨r.author, rfl⟩

theorem fill_author_of_ne (m : Node) (r : Article) (h : r.author ≠ "") :
    fill_author m r = r := by
  unfold fill_author
  rw [if_neg h]

theorem fill_date_shape (m : Node) (r : Article) :
    ∃ d, fill_date m r = { r with date := d } := by
  unfold fill_date
  by_cases h : r.date = ""
  · rw [if_pos h]
    cases findFirst (fun n => isTag "span" n && hasClass "fl-post-info-date" n) m with
    | none => exact ⟨r.date, rfl⟩
    | some de => exact ⟨_, rfl⟩
  · rw [if_neg h]
    exact ⟨r.date, rfl⟩

theorem fill_date_of_ne (m : Node) (r : Article) (h : r.date ≠ "") :
    fill_date m r = r := by
  unfold fill_date
  rw [if_neg h]

theorem fill_cats_shape (m : Node) (r : Article) :
    ∃ cs, fill_cats m r = { r with categories := cs } := by
  unfold fill_cats
  cases findFirst (fun n => isTag "div" n && hasClass "post_categories" n) m with
  | none => exact ⟨r.categories, rfl⟩
  | some ce =>
    simp only []
    by_cases h : r.categories = []
    · rw [if_pos h]
      exact ⟨_, rfl⟩
    · rw [if_neg h]
      exact ⟨r.categories, rfl⟩

theorem fill_cats_of_ne (m : Node) (r : Article) (h : r.categories ≠ []) :
    fill_cats m r = r := by
  unfold fill_cats
  cases findFirst (fun n => isTag "div" n && hasClass "post_categories" n) m with
  | none => rfl
  | some ce =>
    simp only []
    rw [if_neg h]

theorem fill_meta_shape (m : Node) (r : Article) :
    ∃ t a d cs, fill_meta m r = { r with title := t, author := a, date := d, categories := cs } := by
  obtain ⟨t, h1⟩ := fill_title_shape m r
  obtain ⟨a, h2⟩ := fill_author_shape m { r with title := t }
  obtain ⟨d, h3⟩ := fill_date_shape m { r with title := t, author := a }
  obtain ⟨cs, h4⟩ := fill_cats_shape m { r with title := t, author := a, date := d }
  refine ⟨t, a, d, cs, ?_⟩
  unfold fill_meta
  rw [h1, h2, h3, h4]

theorem fill_meta_title_of_ne (m : Node) (r : Article) (h : r.title ≠ "") :
    (fill_meta m r).title = r.title := by
  unfold fill_meta
  rw [fill_title_of_ne m r h]
  obtain ⟨a, h2⟩ := fill_author_shape m r
  rw [h2]
  obtain ⟨d, h3⟩ := fill_date_shape m { r with author := a }
  rw [h3]
  obtain ⟨cs, h4⟩ := fill_cats_shape m { r with author := a, date := d }
  rw [h4]

theorem fill_meta_author_of_ne (m : Node) (r : Article) (h : r.author ≠ "") :
    (fill_meta m r).author = r.author := by
  unfold fill_meta
  obtain ⟨t, h1⟩ := fill_title_shape m r
  rw [h1, fill_author_of_ne m { r with title := t } (by exact h)]
  obtain ⟨d, h3⟩ := fill_date_shape m { r with title := t }
  rw [h3]
  obtain ⟨cs, h4⟩ := fill_cats_shape m { r with title := t, date := d }
  rw [h4]

theorem fill_meta_date_of_ne (m : Node) (r : Article) (h : r.date ≠ "") :
    (fill_meta m r).date = r.date := by
  unfold fill_meta
  obtain ⟨t, h1⟩ := fill_title_shape m r
  rw [h1]
  obtain ⟨a, h2⟩ := fill_author_shape m { r with title := t }
  rw [h2, fill_date_of_ne m { r with title := t, author := a } (by exact h)]
  obtain ⟨cs, h4⟩ := fill_cats_shape m { r with title := t, author := a }
  rw [h4]

theorem fill_meta_cats_of_ne (m : Node) (r : Article) (h : r.categories ≠ []) :
    (fill_meta m r).categories = r.categories := by
  unfold fill_meta
  obtain ⟨t, h1⟩ := fill_title_shape m r
  rw [h1]
  obtain ⟨a, h2⟩ := fill_author_shape m { r with title := t }
  rw [h2]
  obtain ⟨d, h3⟩ := fill_date_shape m { r with title := t, author := a }
  rw [h3, fill_cats_of_ne m { r with title := t, author := a, date := d } (by exact h)]

theorem parse_fst_shape (doc : Node) (r : Article) :
    ∃ t a d cs, (parse_brief_content doc r).1
      = { r with title := t, author := a, date := d, categories := cs } := by
  unfold parse_brief_content
  cases findFirst mainPred doc with
  | none => exact ⟨r.title, r.author, r.date, r.categories, rfl⟩
  | some m => exact fill_meta_shape m r

theorem parse_fst_title_of_ne (doc : Node) (r : Article) (h : r.title ≠ "") :
    (parse_brief_content doc r).1.title = r.title := by
  unfold parse_brief_content
  cases findFirst mainPred doc with
  | none => rfl
  | some m => exact fill_meta_title_of_ne m r h

theorem parse_fst_author_of_ne (doc : Node) (r : Article) (h : r.author ≠ "") :
    (parse_brief_content doc r).1.author = r.author := by
  unfold parse_brief_content
  cases findFirst mainPred doc with
  | none => rfl
  | some m => exact fill_meta_author_of_ne m r h

theorem parse_fst_date_of_ne (doc : Node) (r : Article) (h : r.date ≠ "") :
    (parse_brief_content doc r).1.date = r.date := by
  unfold parse_brief_content
  cases findFirst mainPred doc with
  | none => rfl
  | some m => exact fill_meta_date_of_ne m r h

theorem parse_fst_cats_of_ne (doc : Node) (r : Article) (h : r.categories ≠ []) :
    (parse_brief_content doc r).1.categories = r.categories := by
  unfold parse_brief_content
  cases findFirst mainPred doc with
  | none => rfl
  | some m => exact fill_meta_cats_of_ne m r h

theorem parse_snd_shape (doc : Node) (r : Article) :
    ∃ c, (parse_brief_content doc r).2 = { (parse_brief_content doc r).1 with content := c } := by
  unfold parse_brief_content
  cases findFirst mainPred doc with
  | none => exact ⟨_, rfl⟩
  | some m => exact ⟨_, rfl⟩

end Multihousing

/-! ## Shape lemmas for the multifamilydive metadata writes -/

namespace Multifamilydive

theorem apply_author_shape (art : Node) (r : Article) :
    ∃ a at_, apply_author art r = { r with author := a, author_title := at_ } := by
  unfold apply_author
  cases find_author_el art with
  | some ae =>
    simp only []
    cases findFirst relAuthorPred ae with
    | some al =>
      cases findFirst (fun n => isTag "span" n && hasClass "author-title" n) ae with
      | some at_el => exact ⟨_, _, rfl⟩
      | none => exact ⟨_, r.author_title, rfl⟩
    | none =>
      cases findFirst (fun n => isTag "span" n && hasClass "author-title" n) ae with
      | some at_el => exact ⟨r.author, _, rfl⟩
      | none => exact ⟨r.author, r.author_title, rfl⟩
  | none =>
    cases findFirst (fun n => isTag "div" n && hasClass "article__byline" n) art with
    | some be => exact ⟨_, r.author_title, rfl⟩
    | none => exact ⟨r.author, r.author_title, rfl⟩

theorem apply_date_of_found (art : Node) (r : Article) (de : Node)
    (h : find_date_el art = some de) :
    apply_date art r = { r with date := (getText de).pyStrip } := by
  unfold apply_date
  rw [h]

theorem apply_cats_shape (doc : Node) (r : Article) :
    ∃ cs, apply_cats doc r = { r with categories := cs } := by
  unfold apply_cats
  cases detail_cats doc with
  | none => exact ⟨r.categories, rfl⟩
  | some cats =>
    show ∃ cs, (if cats.isEmpty = true then r else { r with categories := cats })
        = { r with categories := cs }
    by_cases h : cats.isEmpty
    · rw [if_pos h]
      exact ⟨r.categories, rfl⟩
    · rw [if_neg h]
      exact ⟨cats, rfl⟩

theorem apply_cats_of_found (doc : Node) (r : Article) (cats : List String)
    (h : detail_cats doc = some cats) (hne : cats ≠ []) :
    apply_cats doc r = { r with categories := cats } := by
  unfold apply_cats
  rw [h]
  have hie : cats.isEmpty = false := by
    cases cats with
    | nil => exact absurd rfl hne
    | cons x xs => rfl
  show (if cats.isEmpty = true then r else { r with categories := cats })
      = { r with categories := cats }
  rw [hie]
  simp only [Bool.false_eq_true, if_false]

theorem apply_meta_date_of_found (art doc : Node) (r : Article) (de : Node)
    (h : find_date_el art = some de) :
    (apply_meta art doc r).date = (getText de).pyStrip := by
  unfold apply_meta
  obtain ⟨a, at_, h1⟩ := apply_author_shape art r
  rw [h1, apply_date_of_found art _ de h]
  obtain ⟨cs, h3⟩ := apply_cats_shape doc
    { r with author := a, author_title := at_, date := (getText de).pyStrip }
  rw [h3]

theorem apply_meta_cats_of_found (art doc : Node) (r : Article) (cats : List String)
    (h : detail_cats doc = some cats) (hne : cats ≠ []) :
    (apply_meta art doc r).categories = cats := by
  unfold apply_meta
  rw [apply_cats_of_found doc _ cats h hne]

theorem stage1_fst_of_art (doc : Node) (r : Article) (art : Node)
    (h : find_article doc = some art) :
    (stage1 doc r).1 = apply_meta art doc r := by
  unfold stage1
  simp only [h]
  cases findFirst bodyPred art with
  | none => rfl
  | some b => rfl

theorem parse_shape (doc : Node) (r : Article) :
    ∃ c, parse_article_content doc r = { (stage1 doc r).1 with content := c } := by
  unfold parse_article_content
  simp only []
  by_cases h1 : (stage1 doc r).2.1 ≠ ""
  · exact ⟨_, by rw [if_pos h1]⟩
  · rw [if_neg h1]
    by_cases h2 : (stage2 (stage1 doc r).2.2).1 ≠ ""
    · exact ⟨_, by rw [if_pos h2]⟩
    · rw [if_neg h2]
      by_cases h3 : (stage3 (stage2 (stage1 doc r).2.2).2).1 ≠ ""
      · exact ⟨_, by rw [if_pos h3]⟩
      · rw [if_neg h3]
        exact ⟨_, rfl⟩

end Multifamilydive

/-! ## Claims about content-resolution framing and metadata precedence -/

/-- C3 fails on the multihousing variant: `parse_brief_content` writes the
extracted title into the caller's record before copying, so the input is
mutated when its title was empty and the markup supplies one. -/
def docC3 : Node :=
  .elem "html" [] []
    [.elem "div" [] [("id", "cmw_main_content")]
      [.elem "h1" ["fl-heading"] [] [.text "New Title"]]]

/-- Counterexample to C3: the caller's record differs from the input after
the call. -/
theorem claim_C3_counterexample :
    (Multihousing.parse_brief_content docC3 {}).1 ≠ ({} : Article) := by decide

/-- C3 (amended): the credaily and multifamilydive variants build the result
on a copy and never write into the input; the multihousing variant also
returns a fresh copy, but first fills the input's empty title/author/date/
categories fields in place — every other field of the input, and every
already-non-empty field, is left unchanged. -/
theorem claim_C3 (doc : Node) (r : Article) :
    (Multihousing.parse_brief_content doc r).1.link = r.link ∧
    (Multihousing.parse_brief_content doc r).1.summary = r.summary ∧
    (Multihousing.parse_brief_content doc r).1.content = r.content ∧
    (Multihousing.parse_brief_content doc r).1.image_url = r.image_url ∧
    (Multihousing.parse_brief_content doc r).1.source = r.source ∧
    (Multihousing.parse_brief_content doc r).1.author_title = r.author_title ∧
    (r.title ≠ "" → (Multihousing.parse_brief_content doc r).1.title = r.title) ∧
    (r.author ≠ "" → (Multihousing.parse_brief_content doc r).1.author = r.author) ∧
    (r.date ≠ "" → (Multihousing.parse_brief_content doc r).1.date = r.date) ∧
    (r.categories ≠ [] → (Multihousing.parse_brief_content doc r).1.categories = r.categories) := by
  obtain ⟨t, a, d, cs, hs⟩ := Multihousing.parse_fst_shape doc r
  exact ⟨by rw [hs], by rw [hs], by rw [hs], by rw [hs], by rw [hs], by rw [hs],
    Multihousing.parse_fst_title_of_ne doc r,
    Multihousing.parse_fst_author_of_ne doc r,
    Multihousing.parse_fst_date_of_ne doc r,
    Multihousing.parse_fst_cats_of_ne doc r⟩

/-- A fully populated record for the C3 witness. -/
def recC3 : Article :=
  { link := "https://www.multihousingnews.com/p9", title := "Kept Title", summary := "S",
    author := "Kept Author", date := "Kept Date", categories := ["Kept"], image_url := "I",
    content := "X" }

/-- Witness for C3 at markup that offers replacement metadata: non-empty
fields of the input survive the call. -/
theorem claim_C3_witness :
    (Multihousing.parse_brief_content docC3 recC3).1.link = recC3.link ∧
    (Multihousing.parse_brief_content docC3 recC3).1.title = recC3.title ∧
    (Multihousing.parse_brief_content docC3 recC3).1.author = recC3.author ∧
    (Multihousing.parse_brief_content docC3 recC3).1.date = recC3.date ∧
    (Multihousing.parse_brief_content docC3 recC3).1.categories = recC3.categories := by
  obtain ⟨h1, h2, h3, h4, h5, h6, h7, h8, h9, h10⟩ := claim_C3 docC3 recC3
  exact ⟨h1, h7 (by decide), h8 (by decide), h9 (by decide), h10 (by decide)⟩

/-- C4 fails on the multifamilydive variant: a detail-page date overwrites a
non-empty listing date. -/
def docC4 : Node :=
  .elem "html" [] []
    [.elem "article" [] []
      [.elem "div" ["date"] [] [.text "June 2, 2025"],
       .elem "div" ["post-article-topics"] []
         [.elem "a" ["topic"] [] [.text "Finance,"]]]]

/-- The listing record entering the C4 counterexample, carrying a non-empty
date. -/
def recC4 : Article := { link := "https://www.multifamilydive.com/news/x", date := "June 1, 2025" }

/-- Counterexample to C4: the listing-page date is not kept. -/
theorem claim_C4_counterexample :
    recC4.date ≠ "" ∧ (Multifamilydive.parse_article_content docC4 recC4).date ≠ recC4.date := by
  decide

/-- C4 (amended): only the multihousing variant follows the
overwrite-only-when-empty policy (title, author, date, categories); the
multifamilydive variant overwrites the copy's date and categories with the
detail-page values whenever they are extracted, regardless of listing data. -/
theorem claim_C4 :
    (∀ (doc : Node) (r : Article),
      (r.title ≠ "" → (Multihousing.parse_brief_content doc r).2.title = r.title) ∧
      (r.author ≠ "" → (Multihousing.parse_brief_content doc r).2.author = r.author) ∧
      (r.date ≠ "" → (Multihousing.parse_brief_content doc r).2.date = r.date) ∧
      (r.categories ≠ [] →
        (Multihousing.parse_brief_content doc r).2.categories = r.categories)) ∧
    (∀ (doc : Node) (r : Article) (art de : Node),
      Multifamilydive.find_article doc = some art →
      Multifamilydive.find_date_el art = some de →
      (Multifamilydive.parse_article_content doc r).date = (getText de).pyStrip) ∧
    (∀ (doc : Node) (r : Article) (art : Node) (cats : List String),
      Multifamilydive.find_article doc = some art →
      Multifamilydive.detail_cats doc = some cats → cats ≠ [] →
      (Multifamilydive.parse_article_content doc r).categories = cats) := by
  refine ⟨?_, ?_, ?_⟩
  · intro doc r
    obtain ⟨c, hsnd⟩ := Multihousing.parse_snd_shape doc r
    rw [hsnd]
    exact ⟨fun h => Multihousing.parse_fst_title_of_ne doc r h,
      fun h => Multihousing.parse_fst_author_of_ne doc r h,
      fun h => Multihousing.parse_fst_date_of_ne doc r h,
      fun h => Multihousing.parse_fst_cats_of_ne doc r h⟩
  · intro doc r art de hart hde
    obtain ⟨c, hp⟩ := Multifamilydive.parse_shape doc r
    rw [hp, Multifamilydive.stage1_fst_of_art doc r art hart]
    exact Multifamilydive.apply_meta_date_of_found art doc r de hde
  · intro doc r art cats hart hcats hne
    obtain ⟨c, hp⟩ := Multifamilydive.parse_shape doc r
    rw [hp, Multifamilydive.stage1_fst_of_art doc r art hart]
    exact Multifamilydive.apply_meta_cats_of_found art doc r cats hcats hne

/-- The article container of `docC4`. -/
def artC4 : Node :=
  .elem "article" [] []
    [.elem "div" ["date"] [] [.text "June 2, 2025"],
     .elem "div" ["post-article-topics"] []
       [.elem "a" ["topic"] [] [.text "Finance,"]]]

/-- The date element of `artC4`. -/
def deC4 : Node := .elem "div" ["date"] [] [.text "June 2, 2025"]

/-- Witness for C4: multihousing keeps non-empty listing metadata, while
multifamilydive takes the detail-page date and (comma-stripped) topics. -/
theorem claim_C4_witness :
    (Multihousing.parse_brief_content docC3 recC3).2.title = recC3.title ∧
    (Multihousing.parse_brief_content docC3 recC3).2.date = recC3.date ∧
    (Multifamilydive.parse_article_content docC4 recC4).date = (getText deC4).pyStrip ∧
    (Multifamilydive.parse_article_content docC4 recC4).categories = ["Finance"] := by
  obtain ⟨h1, h2, h3, h4⟩ := claim_C4.1 docC3 recC3
  exact ⟨h1 (by decide), h3 (by decide),
    claim_C4.2.1 docC4 recC4 artC4 deC4 rfl rfl,
    claim_C4.2.2 docC4 recC4 artC4 ["Finance"] rfl (by decide) (by decide)⟩
